import Mathlib

/-!
Shallow embedding of the Bite-Piper Minimal MeTTa engine
(`src/metta_atoms.py`, `src/space.py`, `src/metta_interpreter.py`):
the Atom data model, the AtomSpace rule store, and the interpreter
instructions `eval`, `unify`, `chain` with their grounded arithmetic and
comparison functions.  Python machine behaviour that matters to the
specification is made explicit: uncaught exceptions become `Except.error`
values, the interpreter's mutable binding dictionary is threaded as an
association list, and `chain`'s unbounded recursion is exposed through a
fuel parameter.
-/

namespace MeTTa

/-- The closed variant of atom shapes from `metta_atoms.py`: `Symbol` and
`Variable` store a name string in `self.value`, `Expression` stores an
immutable tuple of child atoms. -/
inductive Atom where
  | sym : String → Atom
  | var : String → Atom
  | expr : List Atom → Atom

/-- Python `name.startswith("$")` as used by `Variable.__init__`: the first
character of the string is a dollar sign. -/
def startsWithDollar (s : String) : Bool :=
  s.data.head? == some '$'

/-- The `Symbol(name)` constructor (names are already strings in every use
the specification covers). -/
def mkSymbol (name : String) : Atom := .sym name

/-- The `Variable(name)` constructor: a name that does not already start
with `$` gets the `$` prefix prepended before being stored. -/
def mkVariable (name : String) : Atom :=
  .var (if startsWithDollar name then name else "$" ++ name)

mutual

/-- Python `Atom.__eq__`: `isinstance(other, Atom) and self.value ==
other.value`.  The class of the two atoms is not compared, only the stored
values: `Symbol` and `Variable` both store a name string, so they compare
equal across variants when the names coincide; `Expression` stores a tuple,
and Python tuple equality is length-sensitive elementwise equality, which
recursively re-enters `Atom.__eq__`. -/
def Atom.beq : Atom → Atom → Bool
  | .sym a, .sym b => a == b
  | .sym a, .var b => a == b
  | .sym _, .expr _ => false
  | .var a, .sym b => a == b
  | .var a, .var b => a == b
  | .var _, .expr _ => false
  | .expr _, .sym _ => false
  | .expr _, .var _ => false
  | .expr xs, .expr ys => beqList xs ys

/-- Python tuple equality on the value of an `Expression`. -/
def beqList : List Atom → List Atom → Bool
  | [], [] => true
  | x :: xs, y :: ys => Atom.beq x y && beqList xs ys
  | _, _ => false

end

/-- The value Python hashes in `Atom.__hash__`: the pair
`(self.__class__.__name__, self.value)`, where hashing the tuple value of an
`Expression` recursively hashes each child atom.  The class name is encoded
as the constructor tag.  Python's `hash` is applied to this key; the model
identifies hash equality with key equality (hash collisions between
distinct keys are not modelled). -/
inductive HashVal where
  | symTag : String → HashVal
  | varTag : String → HashVal
  | exprTag : List HashVal → HashVal

mutual

/-- Recursive hash key of an atom, see `HashVal`. -/
def Atom.hashKey : Atom → HashVal
  | .sym s => .symTag s
  | .var s => .varTag s
  | .expr xs => .exprTag (hashKeyList xs)

/-- Hash keys of the children of an `Expression`. -/
def hashKeyList : List Atom → List HashVal
  | [] => []
  | x :: xs => Atom.hashKey x :: hashKeyList xs

end

mutual

/-- Erases the Symbol/Variable distinction at every depth, keeping the
stored names and the expression structure.  `Atom.beq` compares exactly
these erasures (proved below). -/
def collapse : Atom → Atom
  | .sym s => .sym s
  | .var s => .sym s
  | .expr xs => .expr (collapseList xs)

/-- `collapse` mapped over children. -/
def collapseList : List Atom → List Atom
  | [] => []
  | x :: xs => collapse x :: collapseList xs

end

mutual

/-- Decidable structural equality of atoms (identity of the Lean trees,
finer than the Python `==` of `Atom.beq`). -/
def Atom.deq : (a b : Atom) → Decidable (a = b)
  | .sym a, .sym b =>
    match String.decEq a b with
    | .isTrue h => .isTrue (by rw [h])
    | .isFalse h => .isFalse (by simp [h])
  | .sym _, .var _ => .isFalse (by simp)
  | .sym _, .expr _ => .isFalse (by simp)
  | .var _, .sym _ => .isFalse (by simp)
  | .var a, .var b =>
    match String.decEq a b with
    | .isTrue h => .isTrue (by rw [h])
    | .isFalse h => .isFalse (by simp [h])
  | .var _, .expr _ => .isFalse (by simp)
  | .expr _, .sym _ => .isFalse (by simp)
  | .expr _, .var _ => .isFalse (by simp)
  | .expr xs, .expr ys =>
    match deqList xs ys with
    | .isTrue h => .isTrue (by rw [h])
    | .isFalse h => .isFalse (by simp [h])

/-- Decidable equality of child lists. -/
def deqList : (xs ys : List Atom) → Decidable (xs = ys)
  | [], [] => .isTrue rfl
  | [], _ :: _ => .isFalse (by simp)
  | _ :: _, [] => .isFalse (by simp)
  | x :: xs, y :: ys =>
    match Atom.deq x y, deqList xs ys with
    | .isTrue h1, .isTrue h2 => .isTrue (by rw [h1, h2])
    | .isFalse h1, _ => .isFalse (by simp [h1])
    | _, .isFalse h2 => .isFalse (by simp [h2])

end

instance : DecidableEq Atom := Atom.deq

mutual

/-- Decidable equality of hash keys. -/
def HashVal.deq : (a b : HashVal) → Decidable (a = b)
  | .symTag a, .symTag b =>
    match String.decEq a b with
    | .isTrue h => .isTrue (by rw [h])
    | .isFalse h => .isFalse (by simp [h])
  | .symTag _, .varTag _ => .isFalse (by simp)
  | .symTag _, .exprTag _ => .isFalse (by simp)
  | .varTag _, .symTag _ => .isFalse (by simp)
  | .varTag a, .varTag b =>
    match String.decEq a b with
    | .isTrue h => .isTrue (by rw [h])
    | .isFalse h => .isFalse (by simp [h])
  | .varTag _, .exprTag _ => .isFalse (by simp)
  | .exprTag _, .symTag _ => .isFalse (by simp)
  | .exprTag _, .varTag _ => .isFalse (by simp)
  | .exprTag xs, .exprTag ys =>
    match HashVal.deqList xs ys with
    | .isTrue h => .isTrue (by rw [h])
    | .isFalse h => .isFalse (by simp [h])

/-- Decidable equality of hash key lists. -/
def HashVal.deqList : (xs ys : List HashVal) → Decidable (xs = ys)
  | [], [] => .isTrue rfl
  | [], _ :: _ => .isFalse (by simp)
  | _ :: _, [] => .isFalse (by simp)
  | x :: xs, y :: ys =>
    match HashVal.deq x y, HashVal.deqList xs ys with
    | .isTrue h1, .isTrue h2 => .isTrue (by rw [h1, h2])
    | .isFalse h1, _ => .isFalse (by simp [h1])
    | _, .isFalse h2 => .isFalse (by simp [h2])

end

instance : DecidableEq HashVal := HashVal.deq

/-- The sentinel `NotReducible` from `metta_atoms.py`. -/
def NotReducible : Atom := .sym "NotReducible"

/-- The sentinel `Empty` from `metta_atoms.py`. -/
def EmptyAtom : Atom := .sym "Empty"

/-- The sentinel `TrueAtom = Symbol("True")`. -/
def TrueAtom : Atom := .sym "True"

/-- The sentinel `FalseAtom = Symbol("False")`. -/
def FalseAtom : Atom := .sym "False"

mutual

theorem beq_iff_collapse : ∀ (a b : Atom), Atom.beq a b = true ↔ collapse a = collapse b
  | .sym _, .sym _ => by simp [Atom.beq, collapse]
  | .sym _, .var _ => by simp [Atom.beq, collapse]
  | .sym _, .expr _ => by simp [Atom.beq, collapse]
  | .var _, .sym _ => by simp [Atom.beq, collapse]
  | .var _, .var _ => by simp [Atom.beq, collapse]
  | .var _, .expr _ => by simp [Atom.beq, collapse]
  | .expr _, .sym _ => by simp [Atom.beq, collapse]
  | .expr _, .var _ => by simp [Atom.beq, collapse]
  | .expr xs, .expr ys => by
      simp [Atom.beq, collapse, beqList_iff_collapseList xs ys]

theorem beqList_iff_collapseList : ∀ (xs ys : List Atom),
    beqList xs ys = true ↔ collapseList xs = collapseList ys
  | [], [] => by simp [beqList, collapseList]
  | [], _ :: _ => by simp [beqList, collapseList]
  | _ :: _, [] => by simp [beqList, collapseList]
  | x :: xs, y :: ys => by
      simp [beqList, collapseList, beq_iff_collapse x y,
        beqList_iff_collapseList xs ys]

end

mutual

theorem hashKey_inj : ∀ (a b : Atom), Atom.hashKey a = Atom.hashKey b ↔ a = b
  | .sym _, .sym _ => by simp [Atom.hashKey]
  | .sym _, .var _ => by simp [Atom.hashKey]
  | .sym _, .expr _ => by simp [Atom.hashKey]
  | .var _, .sym _ => by simp [Atom.hashKey]
  | .var _, .var _ => by simp [Atom.hashKey]
  | .var _, .expr _ => by simp [Atom.hashKey]
  | .expr _, .sym _ => by simp [Atom.hashKey]
  | .expr _, .var _ => by simp [Atom.hashKey]
  | .expr xs, .expr ys => by
      simp [Atom.hashKey, hashKeyList_inj xs ys]

theorem hashKeyList_inj : ∀ (xs ys : List Atom),
    hashKeyList xs = hashKeyList ys ↔ xs = ys
  | [], [] => by simp [hashKeyList]
  | [], _ :: _ => by simp [hashKeyList]
  | _ :: _, [] => by simp [hashKeyList]
  | x :: xs, y :: ys => by
      simp [hashKeyList, hashKey_inj x y, hashKeyList_inj xs ys]

end

/-! ## Knowledge base (`space.py`) -/

/-- The rule store of `AtomSpace`: `self.rules`, a list of rule atoms in
insertion order. -/
abbrev RuleStore := List Atom

/-- Python property `Expression.head` of a child list: `value[0]` when the
tuple is non-empty, `None` otherwise. -/
def listHead : List Atom → Option Atom
  | [] => none
  | x :: _ => some x

/-- Python `==` on the optional results of the `head` property: two absent
heads (`None == None`) compare equal, an absent head never equals an atom,
and two present heads compare with `Atom.__eq__`. -/
def beqOptA : Option Atom → Option Atom → Bool
  | some a, some b => Atom.beq a b
  | none, none => true
  | _, _ => false

/-- `AtomSpace.add_atom`: stores the atom and returns `True` exactly when
it is an `Expression` of three children whose head `==` `Symbol("=")`;
every other atom is rejected with `False` and the store is untouched.
Returns the Python return value together with the updated store. -/
def add_atom (rules : RuleStore) (atom : Atom) : Bool × RuleStore :=
  match atom with
  | .expr [h, p, b] =>
    if Atom.beq h (.sym "=") then (true, rules ++ [.expr [h, p, b]])
    else (false, rules)
  | _ => (false, rules)

/-- `AtomSpace.query`: scans `self.rules` in insertion order; for a rule
`(= rule_head rule_body)`, if both `rule_head` and the pattern are
`Expression`s the rule matches when their heads `==` (head-only match,
`rule_head.head == pattern.head`), otherwise it matches when
`rule_head == pattern`; the first match returns `rule_body`, and
`NotReducible` is returned when no rule matches.  Every rule admitted by
`add_atom` is an `Expression` of exactly three children, which is what the
source's unguarded `rule.value[1]` / `rule.value[2]` accesses rely on; the
catch-all arm for other shapes is never reached on stores built through
`add_atom`. -/
def query : RuleStore → Atom → Atom
  | [], _ => NotReducible
  | .expr [_, rule_head, rule_body] :: rest, pattern =>
    (match rule_head, pattern with
     | .expr xs, .expr ys =>
       if beqOptA (listHead xs) (listHead ys) then rule_body else query rest pattern
     | _, _ =>
       if Atom.beq rule_head pattern then rule_body else query rest pattern)
  | _ :: rest, pattern => query rest pattern

/-! ## Numbers and grounded functions (`metta_interpreter.py`) -/

/-- Uncaught Python exceptions that escape the interpreter. -/
inductive PyErr where
  | typeError
  | indexError
deriving DecidableEq, Repr

/-- A Python number produced by `_get_number`: an `int`, or a `float` for
texts containing a dot.  Floats are modelled as exact rationals; no
behaviour the specification fixes depends on IEEE rounding or float
formatting. -/
inductive PyNum where
  | i : Int → PyNum
  | f : Rat → PyNum
deriving DecidableEq, Repr

/-- Decimal digit run parsed by Python `int()`: one or more digits. -/
def parseNatDigits (cs : List Char) : Option Nat :=
  if cs.isEmpty || !cs.all Char.isDigit then none
  else some (cs.foldl (fun n c => n * 10 + (c.toNat - '0'.toNat)) 0)

/-- Python `int(s)` on the texts this engine handles: an optional sign
followed by decimal digits, `none` for anything else (`ValueError`). -/
def parseInt (s : String) : Option Int :=
  match s.data with
  | '-' :: rest => (parseNatDigits rest).map (fun n => -(n : Int))
  | '+' :: rest => (parseNatDigits rest).map (fun n => (n : Int))
  | cs => (parseNatDigits cs).map (fun n => (n : Int))

/-- Python `float(s)` on the dot-containing texts this engine handles: an
optional sign, an integer part and a fractional part separated by one dot,
at least one of the two parts non-empty; `none` for anything else
(`ValueError`). -/
def parseFloat (s : String) : Option Rat :=
  let signAndRest : Int × List Char :=
    match s.data with
    | '-' :: rest => (-1, rest)
    | '+' :: rest => (1, rest)
    | cs => (1, cs)
  match signAndRest.2.span (fun c => c != '.') with
  | (intPart, '.' :: fracPart) =>
    if intPart.all Char.isDigit && fracPart.all Char.isDigit
        && !(intPart.isEmpty && fracPart.isEmpty) then
      let ip : Nat := intPart.foldl (fun n c => n * 10 + (c.toNat - '0'.toNat)) 0
      let fp : Nat := fracPart.foldl (fun n c => n * 10 + (c.toNat - '0'.toNat)) 0
      some ((signAndRest.1 : Rat) * ((ip : Rat) + (fp : Rat) / ((10 : Rat) ^ fracPart.length)))
    else none
  | _ => none

/-- The numeric conversion applied to an atom's `value` string:
`float(value) if "." in str(value) else int(value)`. -/
def pyParseNum (s : String) : Option PyNum :=
  if s.data.contains '.' then (parseFloat s).map PyNum.f
  else (parseInt s).map PyNum.i

/-- `MeTTaInterpreter._get_number`: for a `Symbol` or `Variable` the stored
name string is parsed, with parse failures (`ValueError`) caught and turned
into `None`.  For an `Expression` the stored value is a tuple, and
`int(...)`/`float(...)` of a tuple raises `TypeError`, which the
`except (ValueError, AttributeError)` clause does not catch: the exception
escapes. -/
def getNumber : Atom → Except PyErr (Option PyNum)
  | .sym s => .ok (pyParseNum s)
  | .var s => .ok (pyParseNum s)
  | .expr _ => .error .typeError

/-- A Python number viewed as an exact rational (for mixed
int/float arithmetic and comparisons). -/
def PyNum.toRat : PyNum → Rat
  | .i n => (n : Rat)
  | .f q => q

/-- Python `+` with int/float promotion. -/
def PyNum.add : PyNum → PyNum → PyNum
  | .i a, .i b => .i (a + b)
  | a, b => .f (a.toRat + b.toRat)

/-- Python `-` with int/float promotion. -/
def PyNum.sub : PyNum → PyNum → PyNum
  | .i a, .i b => .i (a - b)
  | a, b => .f (a.toRat - b.toRat)

/-- Python `<` on numbers. -/
def PyNum.ltb (a b : PyNum) : Bool := decide (a.toRat < b.toRat)

/-- Python `==` on numbers (value comparison across int/float). -/
def PyNum.eqb (a b : PyNum) : Bool := decide (a.toRat = b.toRat)

/-- Python `str(n)` for an `int`. -/
def intStr (i : Int) : String :=
  match i with
  | .ofNat n => Nat.repr n
  | .negSucc n => "-" ++ Nat.repr (n + 1)

/-- Rendering of a model float.  Python float formatting is not reproduced;
no behaviour the specification fixes inspects this text. -/
def ratStr (q : Rat) : String := intStr q.num ++ "/" ++ Nat.repr q.den

/-- Python `str(result)` applied to the result of a grounded operation. -/
def PyNum.toStr : PyNum → String
  | .i n => intStr n
  | .f q => ratStr q

/-- `MeTTaInterpreter._arithmetic`: exactly two arguments are required, both
must convert to numbers, and the result is wrapped as
`Symbol(str(result))`; an argument list of any other length or a
failed conversion yields `NotReducible`.  An exception raised while
converting an argument (see `getNumber`) escapes, the first argument being
converted before the second. -/
def arithmetic (args : List Atom) (op : PyNum → PyNum → PyNum) : Except PyErr Atom :=
  match args with
  | [a, b] => do
    let n1 ← getNumber a
    let n2 ← getNumber b
    match n1, n2 with
    | some x, some y => .ok (.sym (op x y).toStr)
    | _, _ => .ok NotReducible
  | _ => .ok NotReducible

/-- `MeTTaInterpreter._comparison`: same argument contract as
`arithmetic`, returning `TrueAtom` or `FalseAtom`. -/
def comparison (args : List Atom) (op : PyNum → PyNum → Bool) : Except PyErr Atom :=
  match args with
  | [a, b] => do
    let n1 ← getNumber a
    let n2 ← getNumber b
    match n1, n2 with
    | some x, some y => .ok (if op x y then TrueAtom else FalseAtom)
    | _, _ => .ok NotReducible
  | _ => .ok NotReducible

/-! ## Interpreter instructions -/

/-- `MeTTaInterpreter.eval`: an empty `Expression` is `NotReducible`; a
non-empty `Expression` whose head is one of the grounded function symbols
`+`, `-`, `<`, `==` is handed to the grounded function with the tail as
arguments; any other `Expression`, `Symbol` or `Variable` is forwarded to
the knowledge-base `query`.  The grounded-function dictionary is keyed by
`Symbol` atoms, and `Symbol.__hash__` includes the class name, so only a
`Symbol` head can hit the table. -/
def eval (rules : RuleStore) (arg : Atom) : Except PyErr Atom :=
  match arg with
  | .expr [] => .ok NotReducible
  | .expr (h :: t) =>
    match h with
    | .sym "+" => arithmetic t PyNum.add
    | .sym "-" => arithmetic t PyNum.sub
    | .sym "<" => comparison t PyNum.ltb
    | .sym "==" => comparison t PyNum.eqb
    | _ => .ok (query rules (.expr (h :: t)))
  | a => .ok (query rules a)

/-- The interpreter's binding dictionary `self.bindings`, threaded
explicitly: an association list from variable name to atom with at most one
entry per name. -/
abbrev Bindings := List (String × Atom)

/-- Python dict assignment `self.bindings[name] = atom`: any previous entry
for the name is replaced. -/
def Bindings.set (bs : Bindings) (name : String) (atom : Atom) : Bindings :=
  (name, atom) :: bs.filter (fun p => p.1 != name)

/-- Python `atom.value in bindings` / `bindings[atom.value]`. -/
def Bindings.get : Bindings → String → Option Atom
  | [], _ => none
  | (k, v) :: rest, name => if k == name then some v else Bindings.get rest name

/-- Python `isinstance(atom, Expression)`. -/
def Atom.isExpr : Atom → Bool
  | .expr _ => true
  | _ => false

/-- The head of an atom as read inside `unify` after the `isinstance`
guards: `Expression.head`, absent on an empty expression. -/
def Atom.headOpt : Atom → Option Atom
  | .expr xs => listHead xs
  | _ => none

/-- `MeTTaInterpreter.unify`: equal atoms (Python `==`) unify; two
`Expression`s with `==`-equal heads unify with no bindings recorded; a
`Variable` first argument unifies with anything, recording the binding
`arg1.value ↦ arg2`; everything else returns the not-unified result.
Returns the atom result together with the updated binding table. -/
def unify (bs : Bindings) (arg1 arg2 unified_result not_unified_result : Atom) :
    Atom × Bindings :=
  if Atom.beq arg1 arg2 then (unified_result, bs)
  else if arg1.isExpr && arg2.isExpr && beqOptA arg1.headOpt arg2.headOpt then
    (unified_result, bs)
  else
    match arg1 with
    | .var name => (unified_result, bs.set name arg2)
    | _ => (not_unified_result, bs)

mutual

/-- The local `substitute` function of `MeTTaInterpreter.chain`: a
`Variable` with a bound name is replaced by its binding, an `Expression` is
rebuilt from substituted children, everything else passes through. -/
def substitute (bs : Bindings) : Atom → Atom
  | .var name =>
    match bs.get name with
    | some a => a
    | none => .var name
  | .expr xs => .expr (substituteList bs xs)
  | a => a

/-- `substitute` over the children of an `Expression`. -/
def substituteList (bs : Bindings) : List Atom → List Atom
  | [] => []
  | x :: xs => substitute bs x :: substituteList bs xs

end

/-- Step 1 of `MeTTaInterpreter.chain`: execute the instruction atom.  An
empty `Expression` yields `NotReducible`; `(eval x ...)` with at least one
tail element runs `eval` on the first; `(unify a b u n ...)` with at least
four tail elements calls `unify(*tail)` — which raises `TypeError` when the
tail has more than four elements, since `unify` takes exactly four; any
other atom is returned unevaluated. -/
def chainExec (rules : RuleStore) (bs : Bindings) (arg : Atom) :
    Except PyErr (Atom × Bindings) :=
  match arg with
  | .expr [] => .ok (NotReducible, bs)
  | .expr (h :: t) =>
    if Atom.beq h (.sym "eval") then
      match t with
      | t0 :: _ => (eval rules t0).map (fun a => (a, bs))
      | [] => .ok (.expr (h :: t), bs)
    else if Atom.beq h (.sym "unify") then
      match t with
      | [a1, a2, u, nu] => .ok (unify bs a1 a2 u nu)
      | _ :: _ :: _ :: _ :: _ :: _ => .error .typeError
      | _ => .ok (.expr (h :: t), bs)
    else .ok (.expr (h :: t), bs)
  | a => .ok (a, bs)

/-- Decidable equality for `Except` results. -/
def exceptDecEq {ε α : Type} [DecidableEq ε] [DecidableEq α] :
    (a b : Except ε α) → Decidable (a = b)
  | .error e, .error f =>
    if h : e = f then .isTrue (by rw [h]) else .isFalse (by simp [h])
  | .error _, .ok _ => .isFalse (by simp)
  | .ok _, .error _ => .isFalse (by simp)
  | .ok x, .ok y =>
    if h : x = y then .isTrue (by rw [h]) else .isFalse (by simp [h])

instance {ε α : Type} [DecidableEq ε] [DecidableEq α] : DecidableEq (Except ε α) :=
  exceptDecEq

/-- One full pass through the body of `MeTTaInterpreter.chain`, with the
tail-recursive step-4 `chain` dispatch reified instead of performed. -/
inductive ChainOut where
  | done : Except PyErr (Atom × Bindings) → ChainOut
  | recur : Bindings → Atom → Atom → Atom → ChainOut
deriving DecidableEq

/-- The body of `MeTTaInterpreter.chain`: a non-`Variable` second argument
raises `TypeError`; otherwise the instruction is executed (`chainExec`),
the result is bound to the variable's name, the binding table is
substituted into the continuation, and the substituted continuation is
dispatched: head `eval` runs `eval` on its first tail element — the
unguarded `tail[0]` raising `IndexError` on an empty tail — head `chain`
recurses with `chain(*tail)` — raising `TypeError` unless the tail has
exactly three elements — and anything else is returned as a final value. -/
def chainStep (rules : RuleStore) (bs : Bindings) (arg var result_atom : Atom) :
    ChainOut :=
  match var with
  | .var vname =>
    match chainExec rules bs arg with
    | .error e => .done (.error e)
    | .ok (exec_result, bs1) =>
      let bs2 := bs1.set vname exec_result
      let sub := substitute bs2 result_atom
      match sub with
      | .expr xs =>
        if beqOptA (listHead xs) (some (.sym "eval")) then
          match xs with
          | _ :: t0 :: _ => .done ((eval rules t0).map (fun a => (a, bs2)))
          | _ => .done (.error .indexError)
        else if beqOptA (listHead xs) (some (.sym "chain")) then
          match xs with
          | [_, a, v, r] => .recur bs2 a v r
          | _ => .done (.error .typeError)
        else .done (.ok (sub, bs2))
      | _ => .done (.ok (sub, bs2))
  | _ => .done (.error .typeError)

/-- `MeTTaInterpreter.chain`, with the source's unbounded recursion made
explicit through a fuel parameter: `none` means the computation has not
finished within the given recursion depth, and an input on which the result
is `none` for every fuel is a non-terminating run of the source. -/
def chain (rules : RuleStore) : Nat → Bindings → Atom → Atom → Atom →
    Option (Except PyErr (Atom × Bindings))
  | 0, _, _, _, _ => none
  | fuel + 1, bs, arg, var, result_atom =>
    match chainStep rules bs arg var result_atom with
    | .done res => some res
    | .recur bs2 a v r => chain rules fuel bs2 a v r

/-! ## Specification-side predicates and concrete stores -/

/-- The shape `add_atom` accepts: an `Expression` of exactly three children
whose head `==` `Symbol("=")`. -/
def isEqualityRule (a : Atom) : Bool :=
  match a with
  | .expr [h, _, _] => Atom.beq h (.sym "=")
  | _ => false

/-- The match relation of `query` as §4.2 of the specification states it:
for a stored rule `(= rule_head rule_body)`, if both the stored pattern and
the queried pattern are `Expression`s the match compares only their heads,
otherwise it is Python atom equality. -/
def ruleMatches (pattern rule : Atom) : Bool :=
  match rule with
  | .expr [_, rule_head, _] =>
    match rule_head, pattern with
    | .expr xs, .expr ys => beqOptA (listHead xs) (listHead ys)
    | _, _ => Atom.beq rule_head pattern
  | _ => false

/-- The body component of a stored rule `(= pattern body)`. -/
def ruleBody (rule : Atom) : Atom :=
  match rule with
  | .expr [_, _, b] => b
  | _ => NotReducible

/-- First-match semantics as the specification words it: the body of the
first stored rule matching the pattern, `NotReducible` when none does. -/
def firstMatchResult (rules : RuleStore) (pattern : Atom) : Atom :=
  match rules.find? (fun r => ruleMatches pattern r) with
  | some r => ruleBody r
  | none => NotReducible

theorem isEqualityRule_shape (r : Atom) (h : isEqualityRule r = true) :
    ∃ a b c, r = Atom.expr [a, b, c] := by
  match r with
  | .sym s => simp [isEqualityRule] at h
  | .var s => simp [isEqualityRule] at h
  | .expr [] => simp [isEqualityRule] at h
  | .expr [x] => simp [isEqualityRule] at h
  | .expr [x, y] => simp [isEqualityRule] at h
  | .expr [x, y, z] => exact ⟨x, y, z, rfl⟩
  | .expr (x :: y :: z :: w :: t) => simp [isEqualityRule] at h

theorem query_cons (a b c : Atom) (rest : RuleStore) (p : Atom) :
    query (.expr [a, b, c] :: rest) p
      = if ruleMatches p (.expr [a, b, c]) = true then c else query rest p := by
  cases b <;> cases p <;> simp [query, ruleMatches, Atom.beq]

theorem firstMatchResult_cons (r : Atom) (rest : RuleStore) (p : Atom) :
    firstMatchResult (r :: rest) p
      = if ruleMatches p r = true then ruleBody r else firstMatchResult rest p := by
  by_cases h : ruleMatches p r = true <;>
    simp [firstMatchResult, List.find?_cons, h]

/-- The two allocation-weight rules of the specification's example. -/
def awCritical : Atom := .expr [.sym "allocation_weight", .sym "CRITICAL"]

/-- The queried pattern `(allocation_weight HIGH)`. -/
def awHigh : Atom := .expr [.sym "allocation_weight", .sym "HIGH"]

/-- The queried pattern `(allocation_weight LOW)` (no rule stores it). -/
def awLow : Atom := .expr [.sym "allocation_weight", .sym "LOW"]

/-- The store holding `(= (allocation_weight CRITICAL) 0.40)` and
`(= (allocation_weight HIGH) 0.30)`, inserted in that order through
`add_atom`. -/
def kb3 : RuleStore :=
  (add_atom (add_atom [] (.expr [.sym "=", awCritical, .sym "0.40"])).2
    (.expr [.sym "=", awHigh, .sym "0.30"])).2

/-- The chain instruction `(eval (+ 1 2))` of the specification's example. -/
def c5Instr : Atom := .expr [.sym "eval", .expr [.sym "+", .sym "1", .sym "2"]]

/-- The chain continuation `(eval (+ $x 1))` of the specification's
example. -/
def c5Cont : Atom := .expr [.sym "eval", .expr [.sym "+", .var "$x", .sym "1"]]

/-- The body of the self-referential rule: `(chain (eval q) $x $x)`. -/
def qBody : Atom :=
  .expr [.sym "chain", .expr [.sym "eval", .sym "q"], .var "$x", .var "$x"]

/-- The self-referential rule `(= q (chain (eval q) $x $x))`. -/
def qRule : Atom := .expr [.sym "=", .sym "q", qBody]

/-- A store holding only the self-referential rule, inserted through
`add_atom`. -/
def kbQ : RuleStore := (add_atom [] qRule).2

/-- A one-rule store `(= A B)` used as a concrete witness input. -/
def kbC4 : RuleStore := (add_atom [] (.expr [.sym "=", .sym "A", .sym "B"])).2

theorem chain_loop_invariant (n : Nat) :
    chain kbQ n [("$x", qBody)] (.expr [.sym "eval", .sym "q"]) (.var "$x") (.var "$x")
      = none := by
  induction n with
  | zero => rfl
  | succ k ih =>
    have hstep :
        chainStep kbQ [("$x", qBody)] (.expr [.sym "eval", .sym "q"]) (.var "$x") (.var "$x")
          = ChainOut.recur [("$x", qBody)] (.expr [.sym "eval", .sym "q"]) (.var "$x") (.var "$x") := by
      decide
    simp only [chain]
    rw [hstep]
    exact ih

/-! ## The claims -/

/-- C1.  The claim states that `a == b` holds iff `a` and `b` are the same
variant with structurally equal payload and that `==`-equal atoms hash
equal.  Both parts fail on the code: `Symbol("$x") == Variable("x")` is
`True` although the variants differ, and the two hash keys differ because
`__hash__` includes the class name that `__eq__` ignores. -/
theorem atom_eq_cross_variant :
    Atom.beq (mkSymbol "$x") (mkVariable "x") = true
      ∧ mkSymbol "$x" ≠ mkVariable "x"
      ∧ Atom.hashKey (mkSymbol "$x") ≠ Atom.hashKey (mkVariable "x") :=
  ⟨by decide, by decide, by decide⟩

/-- C1 (amended).  `a == b` holds iff `a` and `b` become identical after
collapsing every `Variable` into a `Symbol` with the same stored name —
equality is recursive, order- and length-sensitive, but blind to the
Symbol/Variable distinction — and `hash(a) == hash(b)` holds iff `a` and
`b` are identical trees (same variant at every node), so `==`-equal atoms
of coincident variant structure hash equal while cross-variant `==`-equal
atoms do not. -/
theorem atom_eq_collapse_hash (a b : Atom) :
    (Atom.beq a b = true ↔ collapse a = collapse b)
      ∧ (Atom.hashKey a = Atom.hashKey b ↔ a = b) :=
  ⟨beq_iff_collapse a b, hashKey_inj a b⟩

/-- C2.  The claim states that `evaluate`, `unify` and `chain` never raise
on well-formed atoms.  The code contradicts its intent at three places,
evaluated here: `chain`'s step-4 dispatch indexes `tail[0]` without the
length guard step 1 has, raising `IndexError` for the continuation
`(eval)`; the same dispatch calls `chain(*tail)` raising `TypeError` for a
continuation `(chain p q)` with a tail of length two; and `evaluate` on
`(+ () 3)` raises `TypeError` because `_get_number` applies `int()` to a
tuple and catches only `ValueError`/`AttributeError`. -/
theorem chain_eval_uncaught_exceptions :
    chain [] 1 [] (.sym "a") (mkVariable "x") (.expr [.sym "eval"])
        = some (.error .indexError)
      ∧ chain [] 1 [] (.sym "a") (mkVariable "x")
            (.expr [.sym "chain", .sym "p", .sym "q"])
          = some (.error .typeError)
      ∧ eval [] (.expr [.sym "+", .expr [], .sym "3"]) = .error .typeError := by
  refine ⟨by decide, by decide, by decide⟩

/-- C3.  The claim states that `query((allocation_weight LOW))` returns
`NotReducible`; in fact the head-only match hits the first stored rule
`(= (allocation_weight CRITICAL) 0.40)`, whose head `allocation_weight`
equals the head of the query, so Symbol `"0.40"` is returned. -/
theorem query_allocation_weight_low_counterexample :
    query kb3 awLow = .sym "0.40" ∧ Atom.sym "0.40" ≠ NotReducible :=
  ⟨by decide, by decide⟩

/-- C3 (amended).  With the rules `(= (allocation_weight CRITICAL) 0.40)`
and `(= (allocation_weight HIGH) 0.30)` inserted in that order,
`query((allocation_weight CRITICAL))` returns Symbol `"0.40"`, and
`query((allocation_weight LOW))` also returns Symbol `"0.40"`, because the
head-only match selects the first rule whose head equals
`allocation_weight`; `NotReducible` is returned only for patterns matching
no rule, e.g. `(other_fn LOW)` or the bare symbol `allocation_weight`. -/
theorem query_allocation_weight_amended :
    query kb3 awCritical = .sym "0.40"
      ∧ query kb3 awLow = .sym "0.40"
      ∧ query kb3 (.expr [.sym "other_fn", .sym "LOW"]) = NotReducible
      ∧ query kb3 (.sym "allocation_weight") = NotReducible := by
  refine ⟨by decide, by decide, by decide, by decide⟩

/-- C4.  On a store whose rules all have the shape `add_atom` admits,
`query` scans in insertion order and returns the body of the first rule
matching the pattern — heads compared when both the stored pattern and the
query are `Expression`s, Python atom equality otherwise — and returns
`NotReducible` when no rule matches. -/
theorem query_first_head_match (rules : RuleStore) (pattern : Atom)
    (hwf : ∀ r ∈ rules, isEqualityRule r = true) :
    query rules pattern = firstMatchResult rules pattern := by
  induction rules with
  | nil => rfl
  | cons r rest ih =>
    have hr := hwf r (List.mem_cons_self r rest)
    have hrest : ∀ x ∈ rest, isEqualityRule x = true := fun x hx =>
      hwf x (List.mem_cons_of_mem r hx)
    obtain ⟨a, b, c, rfl⟩ := isEqualityRule_shape r hr
    rw [query_cons, firstMatchResult_cons]
    by_cases hm : ruleMatches pattern (.expr [a, b, c]) = true
    · simp [hm, ruleBody]
    · simp [hm, ih hrest]

theorem query_first_head_match_witness :
    (∀ r ∈ kbC4, isEqualityRule r = true)
      ∧ query kbC4 (.sym "A") = firstMatchResult kbC4 (.sym "A") :=
  ⟨by decide, query_first_head_match kbC4 (.sym "A") (by decide)⟩

/-- C5.  The claim states that
`chain((eval (+ 1 2)), $x, (eval (+ $x 1)))` returns Symbol `"3"`.  The run
binds Symbol `"3"` to `$x` and then re-evaluates the substituted
continuation `(+ 3 1)`, so the returned atom is Symbol `"4"`, not `"3"`. -/
theorem chain_arith_counterexample :
    chain [] 1 [] c5Instr (mkVariable "x") c5Cont
        = some (.ok (.sym "4", [("$x", .sym "3")]))
      ∧ Atom.sym "4" ≠ Atom.sym "3" :=
  ⟨by decide, by decide⟩

/-- C5 (amended).  With an empty binding table,
`chain((eval (+ 1 2)), $x, (eval (+ $x 1)))` returns Symbol `"4"`: the
instruction evaluates to Symbol `"3"`, which is bound to `$x` and
substituted into the continuation, and the re-evaluated continuation
`(+ 3 1)` yields `4`. -/
theorem chain_arith_amended :
    chain [] 1 [] c5Instr (mkVariable "x") c5Cont
      = some (.ok (.sym "4", [("$x", .sym "3")])) := by
  decide

/-- C6.  The arity and numeric-parse contract of the grounded functions
holds for `Symbol` arguments — wrong arity and unparsable text give
`NotReducible`, numeric texts give the computed Symbol or
`TrueAtom`/`FalseAtom` — but an `Expression` argument does not give
`NotReducible`: it raises an uncaught `TypeError`, because `_get_number`
applies `int()`/`float()` to the expression's tuple value and catches only
`ValueError` and `AttributeError`. -/
theorem grounded_function_contract :
    eval [] (.expr [.sym "+", .sym "2", .sym "3"]) = .ok (.sym "5")
      ∧ eval [] (.expr [.sym "-", .sym "5", .sym "2"]) = .ok (.sym "3")
      ∧ eval [] (.expr [.sym "<", .sym "2", .sym "3"]) = .ok TrueAtom
      ∧ eval [] (.expr [.sym "<", .sym "3", .sym "2"]) = .ok FalseAtom
      ∧ eval [] (.expr [.sym "==", .sym "2", .sym "2"]) = .ok TrueAtom
      ∧ eval [] (.expr [.sym "+", .sym "2", .sym "x"]) = .ok NotReducible
      ∧ eval [] (.expr [.sym "+", .sym "2"]) = .ok NotReducible
      ∧ eval [] (.expr [.sym "+", .sym "2", .sym "3", .sym "4"]) = .ok NotReducible
      ∧ eval [] (.expr [.sym "+", .expr [.sym "a"], .sym "3"]) = .error .typeError := by
  refine ⟨by decide, by decide, by decide, by decide, by decide, by decide,
    by decide, by decide, by decide⟩

/-- C7.  The claim states that `unify` on two distinct `Variable`s returns
the not-unified result and records no binding.  In fact the
`isinstance(arg1, Variable)` branch fires without examining `arg2`:
`unify($a, $b, S, F)` returns `S` and records the binding `$a ↦ $b`. -/
theorem unify_two_variables_counterexample :
    unify [] (.var "$a") (.var "$b") (.sym "S") (.sym "F")
        = (.sym "S", [("$a", .var "$b")])
      ∧ Atom.sym "S" ≠ Atom.sym "F"
      ∧ ([("$a", Atom.var "$b")] : Bindings) ≠ ([] : Bindings) :=
  ⟨by decide, by decide, by decide⟩

/-- C7 (amended).  For every pair of distinct `Variable`s, `unify(a, b,
onSuccess, onFailure)` returns `onSuccess` and records the binding
`a.name ↦ b` in the binding table: variable–variable pairs are not treated
specially. -/
theorem unify_distinct_variables_bind (na nb : String) (hne : na ≠ nb)
    (u nu : Atom) (bs : Bindings) :
    unify bs (.var na) (.var nb) u nu = (u, bs.set na (.var nb)) := by
  have h1 : Atom.beq (.var na) (.var nb) = false := by
    simp [Atom.beq, hne]
  simp [unify, h1, Atom.isExpr]

theorem unify_distinct_variables_bind_witness :
    ("$a" : String) ≠ "$b"
      ∧ unify [] (.var "$a") (.var "$b") (.sym "T") (.sym "N")
          = (.sym "T", Bindings.set [] "$a" (.var "$b")) :=
  ⟨by decide, unify_distinct_variables_bind "$a" "$b" (by decide) (.sym "T") (.sym "N") []⟩

/-- C8.  `add_atom` returns `true` and appends the atom to the rule store
exactly when the atom is an `Expression` of three children whose head
equals `Symbol("=")`; for every other atom it returns `false` and leaves
the store untouched. -/
theorem add_atom_equality_rule_spec (rules : RuleStore) (a : Atom) :
    ((add_atom rules a).1 = true ↔ isEqualityRule a = true)
      ∧ (add_atom rules a).2
          = (if isEqualityRule a = true then rules ++ [a] else rules) := by
  match a with
  | .sym s => simp [add_atom, isEqualityRule]
  | .var s => simp [add_atom, isEqualityRule]
  | .expr [] => simp [add_atom, isEqualityRule]
  | .expr [x] => simp [add_atom, isEqualityRule]
  | .expr [x, y] => simp [add_atom, isEqualityRule]
  | .expr [x, y, z] =>
    by_cases hb : Atom.beq x (.sym "=") = true
    · simp [add_atom, isEqualityRule, hb]
    · simp [add_atom, isEqualityRule, hb]
  | .expr (x :: y :: z :: w :: t) => simp [add_atom, isEqualityRule]

/-- C9.  With the self-referential rule `(= q (chain (eval q) $x $x))`
stored, the call `chain((eval q), $x, $x)` reproduces itself exactly: the
instruction evaluates to the rule body, binding and substitution hand the
body back as the next continuation, and the step-4 dispatch recurses on the
same three arguments with the same binding table.  No fuel suffices, i.e.
the source recursion never terminates, and in particular no depth limit
ever converts the run into a `NotReducible` result. -/
theorem chain_self_reference_diverges (fuel : Nat) :
    chain kbQ fuel [] (.expr [.sym "eval", .sym "q"]) (mkVariable "x") (mkVariable "x")
      = none := by
  cases fuel with
  | zero => rfl
  | succ k =>
    have hstep :
        chainStep kbQ [] (.expr [.sym "eval", .sym "q"]) (mkVariable "x") (mkVariable "x")
          = ChainOut.recur [("$x", qBody)] (.expr [.sym "eval", .sym "q"]) (.var "$x") (.var "$x") := by
      decide
    simp only [chain]
    rw [hstep]
    exact chain_loop_invariant k

/-- C10.  Every atom built by the `Variable` constructor stores a name that
starts with `$` — the prefix is prepended when missing — and
`Variable("x") == Variable("$x")` holds, so the prefix is part of the
identity used as the binding-table key, not merely a display convention. -/
theorem variable_prefix_enforced (name : String) :
    (∃ stored, mkVariable name = .var stored ∧ startsWithDollar stored = true)
      ∧ Atom.beq (mkVariable "x") (mkVariable "$x") = true := by
  constructor
  · by_cases h : startsWithDollar name = true
    · exact ⟨name, by simp [mkVariable, h], h⟩
    · refine ⟨"$" ++ name, by simp [mkVariable, h], ?_⟩
      obtain ⟨cs⟩ := name
      rfl
  · decide

end MeTTa
